import Mathlib

/-!
Verification of the cleaning/derivation pipeline of
`src/netflix_visualization.py` (a pandas/Altair analysis script).

Strings are modelled as lists of characters (`Str`), null cells as
`Option`. Row-local operations of the script (whitespace stripping,
date parsing, duration splitting, first-token extraction, rating
grouping) are translated into executable Lean functions; the
column-level duration split (pandas `str.split(expand=True)` followed
by selecting column 1) is modelled at the table level because its
column count, and hence whether selecting column 1 raises, depends on
the whole column. The sampler (`DataFrame.sample(n, random_state)`) is
modelled as a deterministic without-replacement selection driven by a
seeded linear congruential generator; the claims about it
(determinism, error on insufficient rows, subset validity) depend only
on it being a pure function of (table, size, seed) that picks distinct
in-range indices, not on the exact pseudo-random stream.
-/

/-- A Python string, modelled as its list of characters. -/
abbrev Str := List Char

/-- Whitespace test used by `str.strip` (ASCII subset of Python whitespace). -/
def isWs (c : Char) : Bool := c.isWhitespace

/-- The space character, the separator of `duration.str.split(" ", n=1)`. -/
def spaceChar : Char := Char.ofNat 32

/-- The comma, the separator of `x.split(",")` in the country/genre helpers. -/
def commaChar : Char := Char.ofNat 44

/-- Remove trailing characters satisfying `isWs` (Python `str.rstrip`). -/
def trimRight (s : Str) : Str := (s.reverse.dropWhile isWs).reverse

/-- Python `str.strip()`: drop leading and trailing whitespace. -/
def pyStrip (s : Str) : Str := trimRight (s.dropWhile isWs)

/-- `str.strip` lifted over a nullable cell: pandas `.str.strip()` keeps null null. -/
def stripO (x : Option Str) : Option Str := x.map pyStrip

/-- Python `s.split(sep, 1)`: the part before the first occurrence of `sep`
and, when `sep` occurs, the rest of the string after it (verbatim). -/
def pySplit1 (sep : Char) (s : Str) : Str × Option Str :=
  match s with
  | [] => ([], none)
  | c :: rest =>
    if c = sep then ([], some rest)
    else
      let (p, q) := pySplit1 sep rest
      (c :: p, q)

/-- Python `s.split(sep)[0]`: the prefix of `s` before the first `sep`
(the whole string when `sep` is absent). -/
def beforeChar (sep : Char) (s : Str) : Str := s.takeWhile (fun c => c ≠ sep)

/-- Numeric value of a digit string (most significant first). -/
def digitsVal (s : Str) : Nat := s.foldl (fun a c => a * 10 + (c.toNat - 48)) 0

/-- Parse a nonempty all-digit string; `none` otherwise. -/
def parseDigits (s : Str) : Option Nat :=
  if s ≠ [] ∧ s.all Char.isDigit then some (digitsVal s) else none

/-- Unsigned part of the numeric grammar accepted by `pd.to_numeric`:
digits with an optional decimal point (`"90"`, `"1.5"`, `".5"`, `"5."`).
Scientific notation and infinities, which never occur in this pipeline,
are outside the model. -/
def parseUnsigned (s : Str) : Option ℚ :=
  let ip := s.takeWhile Char.isDigit
  let rest := s.dropWhile Char.isDigit
  match rest with
  | [] => if ip = [] then none else some (digitsVal ip)
  | c :: fp =>
    if c = Char.ofNat 46 ∧ fp.all Char.isDigit ∧ (ip ≠ [] ∨ fp ≠ []) then
      some ((digitsVal ip : ℚ) + (digitsVal fp : ℚ) / (10 : ℚ) ^ fp.length)
    else none

/-- Model of `pd.to_numeric(x, errors="coerce")` on a string cell:
optional sign around the unsigned grammar; unparseable input coerces to
null (`none`). -/
def pdToNumeric (s : Str) : Option ℚ :=
  let t := pyStrip s
  match t with
  | c :: r =>
    if c = Char.ofNat 43 then parseUnsigned r
    else if c = Char.ofNat 45 then (parseUnsigned r).map Neg.neg
    else parseUnsigned t
  | [] => none

/-- Strict integer parse (optional sign, digits only). This follows the
wording of the specification, which says the first duration token is
parsed as an integer; it is compared against the coercing numeric parse
the code actually performs. -/
def pyIntParse (s : Str) : Option Int :=
  match s with
  | c :: r =>
    if c = Char.ofNat 43 then (parseDigits r).map Int.ofNat
    else if c = Char.ofNat 45 then (parseDigits r).map (fun n => -(n : Int))
    else (parseDigits s).map Int.ofNat
  | [] => none

/-- `simplify_rating` from the script: membership tests against the two
fixed lists (Python `r in [...]`, written out as the disjunction of
equalities it denotes) with `"Family/Kids"` as the fallthrough. A null
rating (`none`, pandas `NaN`) fails both membership tests and lands in
the fallthrough, exactly as `NaN in [...]` is false in Python. -/
def simplify_rating (r : Option Str) : Str :=
  if r = some "TV-MA".toList ∨ r = some "R".toList ∨ r = some "NC-17".toList then
    "Mature".toList
  else if r = some "TV-14".toList ∨ r = some "PG-13".toList then
    "Teen".toList
  else "Family/Kids".toList

example : simplify_rating (some "TV-MA".toList) = "Mature".toList := by decide
example : simplify_rating (some "PG-13".toList) = "Teen".toList := by decide
example : simplify_rating none = "Family/Kids".toList := by decide
example : simplify_rating (some "TV-Y".toList) = "Family/Kids".toList := by decide

/-- A parsed calendar date, the result of `pd.to_datetime`. -/
structure Date where
  year : Nat
  month : Nat
  day : Nat
deriving DecidableEq, Repr

/-- Full month names recognised in the `date_added` column. -/
def monthNames : List Str :=
  ["January".toList, "February".toList, "March".toList, "April".toList,
   "May".toList, "June".toList, "July".toList, "August".toList,
   "September".toList, "October".toList, "November".toList, "December".toList]

/-- 1-based month number of a month name, if it is one. -/
def monthIndex (m : Str) : Option Nat :=
  (monthNames.findIdx? (fun n => n = m)).map (· + 1)

/-- Model of `pd.to_datetime(x, errors="coerce")` on a string cell,
restricted to the format of this dataset (`"March 5, 2019"`): full month
name, space, day, comma, four-digit year. Any other string coerces to
null (`none`), matching the coercion policy of the code; the exact
extent of the tolerated grammar beyond this format is not load-bearing
for any claim, which only depend on null-on-failure propagation. -/
def pdParseDate (s : Str) : Option Date :=
  let (mon, rest) := pySplit1 spaceChar s
  match rest with
  | none => none
  | some r =>
    let (dayS, rest2) := pySplit1 commaChar r
    match rest2 with
    | none => none
    | some yPart =>
      match monthIndex mon, parseDigits (pyStrip dayS), parseDigits (pyStrip yPart) with
      | some m, some d, some y =>
        if 1 ≤ d ∧ d ≤ 31 ∧ (pyStrip yPart).length = 4 then some ⟨y, m, d⟩ else none
      | _, _, _ => none

example : pdParseDate "March 5, 2019".toList = some ⟨2019, 3, 5⟩ := by decide
example : pdParseDate "not a date".toList = none := by decide

/-- One raw row of the sampled table, as read by `pd.read_csv`: the text
columns are nullable strings, `release_year` is numeric. -/
structure RawRow where
  title : Option Str := none
  type : Option Str := none
  director : Option Str := none
  cast : Option Str := none
  country : Option Str := none
  date_added : Option Str := none
  release_year : Option Int := none
  rating : Option Str := none
  duration : Option Str := none
  listed_in : Option Str := none
  description : Option Str := none
deriving DecidableEq, Repr

/-- One cleaned row: the raw columns after stripping, `date_added`
replaced by its parsed value, plus the derived columns the cleaner adds. -/
structure CleanRow where
  title : Option Str := none
  type : Option Str := none
  director : Option Str := none
  cast : Option Str := none
  country : Option Str := none
  date_added : Option Date := none
  release_year : Option Int := none
  rating : Option Str := none
  duration : Option Str := none
  listed_in : Option Str := none
  description : Option Str := none
  year_added : Option Nat := none
  duration_int : Option ℚ := none
  duration_type : Option Str := none
  country_primary : Option Str := none
  main_genre : Option Str := none
deriving DecidableEq, Repr

/-- Step 3.1 of the script: `.str.strip()` over every object (string)
column of the raw table; `release_year` is numeric and untouched. -/
def stripRow (r : RawRow) : RawRow :=
  { title := stripO r.title, type := stripO r.type,
    director := stripO r.director, cast := stripO r.cast,
    country := stripO r.country, date_added := stripO r.date_added,
    release_year := r.release_year, rating := stripO r.rating,
    duration := stripO r.duration, listed_in := stripO r.listed_in,
    description := stripO r.description }

/-- `get_first_country` from the script: null stays null (`pd.isna`
guard), otherwise `x.split(",")[0].strip()`. -/
def get_first_country (x : Option Str) : Option Str :=
  x.map (fun s => pyStrip (beforeChar commaChar s))

/-- `get_main_genre` from the script: identical logic applied to
`listed_in`. -/
def get_main_genre (x : Option Str) : Option Str :=
  x.map (fun s => pyStrip (beforeChar commaChar s))

/-- Row-local part of the duration split (step 3.3): split the cell on
the first space; column 0 goes through `pd.to_numeric(errors="coerce")`,
column 1 is the verbatim remainder (null when there is no space or the
cell is null). -/
def durationFields (d : Option Str) : Option ℚ × Option Str :=
  match d with
  | none => (none, none)
  | some s =>
    let p := pySplit1 spaceChar s
    (pdToNumeric p.1, p.2)

/-- Steps 3.2 through 3.5 of the script applied to one already-stripped
row: parse `date_added`, derive `year_added`, split `duration`, extract
`country_primary` and `main_genre`. -/
def cleanRowStripped (r : RawRow) : CleanRow :=
  let date := r.date_added.bind pdParseDate
  let dur := durationFields r.duration
  { title := r.title, type := r.type, director := r.director,
    cast := r.cast, country := r.country,
    date_added := date, release_year := r.release_year,
    rating := r.rating, duration := r.duration,
    listed_in := r.listed_in, description := r.description,
    year_added := date.map Date.year,
    duration_int := dur.1, duration_type := dur.2,
    country_primary := get_first_country r.country,
    main_genre := get_main_genre r.listed_in }

/-- The full per-row cleaning semantics: strip, then derive. -/
def cleanRow (r : RawRow) : CleanRow := cleanRowStripped (stripRow r)

/-- Whether the expanded duration split produces a second column:
pandas `str.split(" ", n=1, expand=True)` yields two columns exactly
when some non-null cell contains a space. -/
def hasSecondCol (durs : List (Option Str)) : Bool :=
  durs.any (fun d =>
    match d with
    | some s => ((pySplit1 spaceChar s).2).isSome
    | none => false)

/-- The one uncaught error the cleaning section can raise: selecting
column 1 of the expanded duration split (`duration_split[1]`, line 76)
raises a `KeyError` when the split produced fewer than two columns. -/
inductive CleanError where
  | missingDurationTypeColumn
deriving DecidableEq, Repr

/-- The cleaning section (script lines 62 through 92) over a whole
table: strip every string column, then run the derivations. Selecting
column 1 of the duration split aborts with a `KeyError` when no
(stripped) duration cell contains a space, because the expanded split
then has a single column; this also covers the empty table. -/
def cleanRows (rows : List RawRow) : Except CleanError (List CleanRow) :=
  let stripped := rows.map stripRow
  if hasSecondCol (stripped.map RawRow.duration) then
    .ok (stripped.map cleanRowStripped)
  else
    .error .missingDurationTypeColumn

example :
    (cleanRow { duration := some "90 min".toList }).duration_int = some 90 := by decide
example :
    (cleanRow { duration := some "90 min".toList }).duration_type = some "min".toList := by decide
example :
    (cleanRow { duration := some "2 Seasons".toList }).duration_int = some 2 := by decide
example :
    (cleanRow { duration := some "".toList }).duration_int = none := by decide
example :
    (cleanRow { duration := some "1.5 min".toList }).duration_int.isSome = true := by decide
example :
    (cleanRow { country := some "United States, India".toList }).country_primary
      = some "United States".toList := by decide
example :
    (cleanRow { listed_in := some " Dramas ".toList }).main_genre
      = some "Dramas".toList := by decide

/-- Step 3.1 re-applied to an already-cleaned table. The object (string)
columns now also include the derived text columns `duration_type`,
`country_primary` and `main_genre`; `date_added` (datetime), `year_added`
(Int64), `duration_int` (float) and `release_year` (int) are not object
columns and are untouched. -/
def stripCleanRow (r : CleanRow) : CleanRow :=
  { r with
    title := stripO r.title, type := stripO r.type,
    director := stripO r.director, cast := stripO r.cast,
    country := stripO r.country, rating := stripO r.rating,
    duration := stripO r.duration, listed_in := stripO r.listed_in,
    description := stripO r.description,
    duration_type := stripO r.duration_type,
    country_primary := stripO r.country_primary,
    main_genre := stripO r.main_genre }

/-- Steps 3.2 through 3.5 re-applied to one stripped cleaned row:
`pd.to_datetime` on an already-datetime column is the identity, so
`date_added` stays put and `year_added` is recomputed from it; the
duration, country and genre derivations are recomputed and overwrite
the derived columns. -/
def cleanAgainRowStripped (r : CleanRow) : CleanRow :=
  let dur := durationFields r.duration
  { r with
    year_added := r.date_added.map Date.year,
    duration_int := dur.1, duration_type := dur.2,
    country_primary := get_first_country r.country,
    main_genre := get_main_genre r.listed_in }

/-- The cleaning section run a second time, on its own output table. -/
def cleanRowsAgain (rows : List CleanRow) : Except CleanError (List CleanRow) :=
  let stripped := rows.map stripCleanRow
  if hasSecondCol (stripped.map CleanRow.duration) then
    .ok (stripped.map cleanAgainRowStripped)
  else
    .error .missingDurationTypeColumn

/-- Errors the sampling stage can raise: `DataFrame.sample(n)` without
replacement raises when `n` exceeds the population
("Cannot take a larger sample than population"); the specification
names this condition `InsufficientRowsError`. -/
inductive SampleError where
  | insufficientRows
deriving DecidableEq, Repr

/-- One step of the seeded pseudo-random stream standing in for numpy
`RandomState(seed)`: a linear congruential generator. The sampler claims
depend only on the stream being a pure function of the seed. -/
def lcgNext (s : Nat) : Nat := (s * 1103515245 + 12345) % 2 ^ 31

/-- Remove the element at position `i`, returning it and the remainder;
`none` when `i` is out of range. -/
def removeAt {α : Type} : List α → Nat → Option (α × List α)
  | [], _ => none
  | a :: t, 0 => some (a, t)
  | a :: t, n + 1 => (removeAt t n).map (fun p => (p.1, a :: p.2))

/-- Draw `k` indices without replacement from `pool`, driving the choice
with the seeded generator: each step removes one element of the pool. -/
def sampleIdxGo : Nat → List Nat → Nat → List Nat
  | _, _, 0 => []
  | s, pool, k + 1 =>
    match removeAt pool (lcgNext s % pool.length) with
    | none => []
    | some (x, rest) => x :: sampleIdxGo (lcgNext s) rest k

/-- An in-memory table: a header of column names and a list of rows. -/
structure Table (α : Type) where
  columns : List String
  rows : List α
deriving DecidableEq, Repr

/-- Model of `DataFrame.sample(n=n, random_state=seed)` (line 47 of the
script): error when the table has fewer than `n` rows, otherwise the
rows at `n` seed-determined distinct indices, with the column set kept. -/
def pandasSample {α : Type} (t : Table α) (n seed : Nat) :
    Except SampleError (Table α) :=
  if t.rows.length < n then .error .insufficientRows
  else
    .ok ⟨t.columns,
      (sampleIdxGo seed (List.range t.rows.length) n).filterMap
        (fun i => t.rows[i]?)⟩

/-- The sampler as invoked by the script: 3000 rows, seed 42. -/
def dfSubsetOf {α : Type} (dfFull : Table α) : Except SampleError (Table α) :=
  pandasSample dfFull 3000 42

/-- The named tables the cleaning section of the script can read or
write: `df_subset` (the sampled artifact, line 47) and `df` (the
analysis table, assigned at line 62 and mutated through line 92). -/
structure CleaningState where
  df_subset : List RawRow
  df : Option (Except CleanError (List CleanRow))
deriving Repr

/-- Lines 62 through 92 of the script as a state transformation:
`df = df_subset.copy()` binds `df` to a copy, and every subsequent
assignment (`df[col] = ...`) targets `df`; no statement in the section
assigns to `df_subset`. -/
def runCleaningStage (st : CleaningState) : CleaningState :=
  { df_subset := st.df_subset, df := some (cleanRows st.df_subset) }

/-- `df_genre` (line 182 of the script): the cleaned rows restricted to
those whose `main_genre` and `rating` are both non-null. -/
def dfGenre (rows : List CleanRow) : List CleanRow :=
  rows.filter (fun r => r.main_genre.isSome && r.rating.isSome)

/-- The `rating_group` column of `df_genre` (line 183): the only place
in the script where `simplify_rating` is applied. -/
def ratingGroupCol (rows : List CleanRow) : List Str :=
  (dfGenre rows).map (fun r => simplify_rating r.rating)

/-! ### List lemmas about dropWhile, takeWhile and the strip functions -/

theorem dropWhile_idem (p : Char → Bool) (l : Str) :
    (l.dropWhile p).dropWhile p = l.dropWhile p := by
  induction l with
  | nil => rfl
  | cons c t ih =>
    by_cases h : p c
    · simp [List.dropWhile_cons, h, ih]
    · simp [List.dropWhile_cons, h]

theorem head_dropWhile_false (p : Char → Bool) (l : Str) (c : Char) (t : Str)
    (h : l.dropWhile p = c :: t) : p c = false := by
  induction l with
  | nil => simp at h
  | cons a r ih =>
    by_cases ha : p a
    · rw [List.dropWhile_cons, if_pos ha] at h
      exact ih h
    · rw [List.dropWhile_cons, if_neg ha] at h
      cases h
      simpa using ha

theorem takeWhile_append_all (q : Char → Bool) (x y : Str)
    (h : ∀ c ∈ x, q c = true) :
    (x ++ y).takeWhile q = x ++ y.takeWhile q := by
  induction x with
  | nil => rfl
  | cons a t ih =>
    have ha : q a = true := h a (by simp)
    simp only [List.cons_append, List.takeWhile_cons, ha, if_true]
    rw [ih (fun c hc => h c (by simp [hc]))]

theorem dropWhile_append_all (p : Char → Bool) (x y : Str)
    (h : ∀ c ∈ x, p c = true) :
    (x ++ y).dropWhile p = y.dropWhile p := by
  induction x with
  | nil => rfl
  | cons a t ih =>
    have ha : p a = true := h a (by simp)
    simp only [List.cons_append, List.dropWhile_cons, ha, if_true]
    exact ih (fun c hc => h c (by simp [hc]))

theorem dropWhile_append_left (p : Char → Bool) (x y : Str)
    (h : x.dropWhile p ≠ []) :
    (x ++ y).dropWhile p = x.dropWhile p ++ y := by
  induction x with
  | nil => simp at h
  | cons a t ih =>
    by_cases ha : p a
    · rw [List.dropWhile_cons, if_pos ha] at h
      simp only [List.cons_append, List.dropWhile_cons, ha, if_true]
      exact ih h
    · simp [List.dropWhile_cons, ha]

theorem takeWhile_append_left (q : Char → Bool) (x y : Str)
    (h : x.takeWhile q ≠ x) :
    (x ++ y).takeWhile q = x.takeWhile q := by
  induction x with
  | nil => simp at h
  | cons a t ih =>
    by_cases ha : q a
    · rw [List.takeWhile_cons, if_pos ha] at h
      simp only [List.cons_append, List.takeWhile_cons, ha, if_true]
      rw [ih (fun he => h (by rw [he]))]
    · simp [List.takeWhile_cons, ha]

theorem mem_takeWhile_sat (q : Char → Bool) (l : Str) (c : Char)
    (h : c ∈ l.takeWhile q) : q c = true := by
  induction l with
  | nil => simp at h
  | cons a t ih =>
    by_cases ha : q a
    · rw [List.takeWhile_cons, if_pos ha] at h
      rcases List.mem_cons.mp h with h1 | h2
      · exact h1 ▸ ha
      · exact ih h2
    · rw [List.takeWhile_cons, if_neg ha] at h
      simp at h

theorem takeWhile_eq_self_all (q : Char → Bool) (l : Str)
    (h : l.takeWhile q = l) : ∀ c ∈ l, q c = true := by
  intro c hc
  apply mem_takeWhile_sat q l
  rw [h]
  exact hc

theorem takeWhile_all_eq_self (q : Char → Bool) (l : Str)
    (h : ∀ c ∈ l, q c = true) : l.takeWhile q = l := by
  induction l with
  | nil => rfl
  | cons a t ih =>
    have ha : q a = true := h a (by simp)
    simp only [List.takeWhile_cons, ha, if_true]
    rw [ih (fun c hc => h c (by simp [hc]))]

theorem dropWhile_all_eq_nil (p : Char → Bool) (l : Str)
    (h : ∀ c ∈ l, p c = true) : l.dropWhile p = [] := by
  induction l with
  | nil => rfl
  | cons a t ih =>
    have ha : p a = true := h a (by simp)
    simp only [List.dropWhile_cons, ha, if_true]
    exact ih (fun c hc => h c (by simp [hc]))

theorem trimRight_decomp (l : Str) :
    ∃ w, l = trimRight l ++ w ∧ ∀ c ∈ w, isWs c = true := by
  refine ⟨(l.reverse.takeWhile isWs).reverse, ?_, ?_⟩
  · conv_lhs => rw [← List.reverse_reverse l,
      ← List.takeWhile_append_dropWhile (p := isWs) (l := l.reverse)]
    rw [List.reverse_append]
    rfl
  · intro c hc
    rw [List.mem_reverse] at hc
    exact mem_takeWhile_sat isWs l.reverse c hc

theorem trimRight_idem (l : Str) : trimRight (trimRight l) = trimRight l := by
  unfold trimRight
  rw [List.reverse_reverse, dropWhile_idem]

theorem trimRight_append_ws (x w : Str) (h : ∀ c ∈ w, isWs c = true) :
    trimRight (x ++ w) = trimRight x := by
  unfold trimRight
  rw [List.reverse_append, dropWhile_append_all isWs w.reverse x.reverse
    (fun c hc => h c (List.mem_reverse.mp hc))]

theorem dropWhile_trimRight_dropWhile (l : Str) :
    (trimRight (l.dropWhile isWs)).dropWhile isWs = trimRight (l.dropWhile isWs) := by
  cases htm : trimRight (l.dropWhile isWs) with
  | nil => rfl
  | cons c t =>
    obtain ⟨w, hw, _⟩ := trimRight_decomp (l.dropWhile isWs)
    rw [htm] at hw
    have hc : isWs c = false := by
      apply head_dropWhile_false isWs l c (t ++ w)
      rw [hw]
      rfl
    rw [List.dropWhile_cons, if_neg (by simp [hc])]

theorem pyStrip_idem (s : Str) : pyStrip (pyStrip s) = pyStrip s := by
  unfold pyStrip
  rw [dropWhile_trimRight_dropWhile, trimRight_idem]

theorem stripO_stripO (x : Option Str) : stripO (stripO x) = stripO x := by
  cases x with
  | none => rfl
  | some s => simp [stripO, pyStrip_idem]

theorem pyStrip_ws_prepend (w x : Str) (h : ∀ c ∈ w, isWs c = true) :
    pyStrip (w ++ x) = pyStrip x := by
  unfold pyStrip
  rw [dropWhile_append_all isWs w x h]

theorem pyStrip_append_ws (x w : Str) (h : ∀ c ∈ w, isWs c = true) :
    pyStrip (x ++ w) = pyStrip x := by
  unfold pyStrip
  cases hdx : x.dropWhile isWs with
  | nil =>
    have hx : ∀ c ∈ x, isWs c = true := by
      intro c hc
      have := List.takeWhile_append_dropWhile (p := isWs) (l := x)
      rw [hdx, List.append_nil] at this
      exact takeWhile_eq_self_all isWs x this c hc
    rw [dropWhile_all_eq_nil isWs (x ++ w)
      (fun c hc => (List.mem_append.mp hc).elim (hx c) (h c))]
  | cons a t =>
    rw [dropWhile_append_left isWs x w (by rw [hdx]; simp),
      trimRight_append_ws _ w h, hdx]

theorem pySplit1_fst (sep : Char) (s : Str) :
    (pySplit1 sep s).1 = beforeChar sep s := by
  induction s with
  | nil => rfl
  | cons c t ih =>
    by_cases h : c = sep
    · simp [pySplit1, beforeChar, List.takeWhile_cons, h]
    · simp only [pySplit1, beforeChar, List.takeWhile_cons, if_neg h]
      rw [if_pos (by simp [h])]
      simpa [beforeChar] using congrArg (c :: ·) ih

/-- Stripping first does not change the stripped first token: the
leading whitespace a strip removes contains no separator, and the
trailing whitespace either sits past the first separator or is removed
again by the outer strip. -/
theorem pyStrip_beforeChar_pyStrip (sep : Char) (hsep : isWs sep = false) (s : Str) :
    pyStrip (beforeChar sep (pyStrip s)) = pyStrip (beforeChar sep s) := by
  have hq : ∀ c : Char, isWs c = true → (fun c => decide (c ≠ sep)) c = true := by
    intro c hc
    simp only [decide_eq_true_eq]
    intro he
    rw [he, hsep] at hc
    exact absurd hc (by simp)
  unfold beforeChar
  have hsplit := (List.takeWhile_append_dropWhile (p := isWs) (l := s)).symm
  set w1 := s.takeWhile isWs with hw1
  set d := s.dropWhile isWs with hd
  have hw1ws : ∀ c ∈ w1, isWs c = true := fun c hc => mem_takeWhile_sat isWs s c hc
  have hrhs : s.takeWhile (fun c => decide (c ≠ sep))
      = w1 ++ d.takeWhile (fun c => decide (c ≠ sep)) := by
    conv_lhs => rw [hsplit]
    exact takeWhile_append_all _ w1 d (fun c hc => hq c (hw1ws c hc))
  rw [hrhs, pyStrip_ws_prepend w1 _ hw1ws]
  have hpy : pyStrip s = trimRight d := rfl
  obtain ⟨w2, hw2, hw2ws⟩ := trimRight_decomp d
  rw [hpy]
  by_cases hstop : (trimRight d).takeWhile (fun c => decide (c ≠ sep)) = trimRight d
  · rw [hstop]
    conv_rhs => rw [hw2]
    rw [takeWhile_append_all _ (trimRight d) w2
      (takeWhile_eq_self_all _ (trimRight d) hstop),
      takeWhile_all_eq_self _ w2 (fun c hc => hq c (hw2ws c hc)),
      pyStrip_append_ws _ w2 hw2ws]
  · conv_rhs => rw [hw2]
    rw [takeWhile_append_left _ (trimRight d) w2 hstop]

/-! ### Idempotence of the cleaning pass -/

theorem stripRow_idem (r : RawRow) : stripRow (stripRow r) = stripRow r := by
  simp [stripRow, stripO_stripO]

theorem cleanAgain_fixpoint (r : RawRow) :
    cleanAgainRowStripped (stripCleanRow (cleanRow r)) = cleanRow r := by
  simp only [cleanRow, cleanRowStripped, stripRow, stripCleanRow,
    cleanAgainRowStripped, stripO_stripO]

theorem stripCleanRow_duration (r : RawRow) :
    (stripCleanRow (cleanRow r)).duration = (cleanRow r).duration := by
  simp only [cleanRow, cleanRowStripped, stripRow, stripCleanRow, stripO_stripO]

theorem cleanRows_again (rows : List RawRow) (out : List CleanRow)
    (h : cleanRows rows = .ok out) : cleanRowsAgain out = .ok out := by
  unfold cleanRows at h
  by_cases hcol : hasSecondCol ((rows.map stripRow).map RawRow.duration) = true
  · rw [if_pos hcol] at h
    injection h with h2
    have h3 : (rows.map stripRow).map cleanRowStripped = rows.map cleanRow := by
      rw [List.map_map]
      rfl
    rw [← h2, h3]
    have e1 : List.map CleanRow.duration (List.map stripCleanRow (List.map cleanRow rows))
        = List.map RawRow.duration (List.map stripRow rows) := by
      simp only [List.map_map]
      apply List.map_congr_left
      intro r _
      show (stripCleanRow (cleanRow r)).duration = (stripRow r).duration
      rw [stripCleanRow_duration]
      rfl
    have e2 : List.map cleanAgainRowStripped (List.map stripCleanRow (List.map cleanRow rows))
        = List.map cleanRow rows := by
      simp only [List.map_map]
      apply List.map_congr_left
      intro r _
      exact cleanAgain_fixpoint r
    show (if hasSecondCol (List.map CleanRow.duration
          (List.map stripCleanRow (List.map cleanRow rows))) = true then
        Except.ok (List.map cleanAgainRowStripped
          (List.map stripCleanRow (List.map cleanRow rows)))
      else Except.error CleanError.missingDurationTypeColumn)
      = Except.ok (List.map cleanRow rows)
    rw [e1, if_pos hcol, e2]
  · rw [if_neg hcol] at h
    cases h

/-! ### Sampler lemmas -/

theorem removeAt_isSome {α : Type} (l : List α) (i : Nat) (h : i < l.length) :
    ∃ x r, removeAt l i = some (x, r) := by
  induction l generalizing i with
  | nil => simp at h
  | cons a t ih =>
    cases i with
    | zero => exact ⟨a, t, rfl⟩
    | succ n =>
      obtain ⟨x, r, hr⟩ := ih n (by simpa using h)
      exact ⟨x, a :: r, by simp [removeAt, hr]⟩

theorem removeAt_mem {α : Type} (l : List α) (i : Nat) (x : α) (r : List α)
    (h : removeAt l i = some (x, r)) : x ∈ l := by
  induction l generalizing i r with
  | nil => simp [removeAt] at h
  | cons a t ih =>
    cases i with
    | zero =>
      simp [removeAt] at h
      simp [h.1]
    | succ n =>
      simp only [removeAt, Option.map_eq_some'] at h
      obtain ⟨⟨y, s⟩, hy, he⟩ := h
      cases he
      exact List.mem_cons_of_mem a (ih n s hy)

theorem removeAt_length {α : Type} (l : List α) (i : Nat) (x : α) (r : List α)
    (h : removeAt l i = some (x, r)) : r.length + 1 = l.length := by
  induction l generalizing i r with
  | nil => simp [removeAt] at h
  | cons a t ih =>
    cases i with
    | zero =>
      simp [removeAt] at h
      simp [h.2]
    | succ n =>
      simp only [removeAt, Option.map_eq_some'] at h
      obtain ⟨⟨y, s⟩, hy, he⟩ := h
      cases he
      simpa using ih n s hy

theorem removeAt_sub {α : Type} (l : List α) (i : Nat) (x : α) (r : List α)
    (h : removeAt l i = some (x, r)) : ∀ y ∈ r, y ∈ l := by
  induction l generalizing i r with
  | nil => simp [removeAt] at h
  | cons a t ih =>
    cases i with
    | zero =>
      simp [removeAt] at h
      intro y hy
      rw [h.2]
      exact List.mem_cons_of_mem a hy
    | succ n =>
      simp only [removeAt, Option.map_eq_some'] at h
      obtain ⟨⟨z, s⟩, hz, he⟩ := h
      cases he
      intro y hy
      rcases List.mem_cons.mp hy with h1 | h2
      · simp [h1]
      · exact List.mem_cons_of_mem a (ih n s hz y h2)

theorem removeAt_nodup {α : Type} (l : List α) (i : Nat) (x : α) (r : List α)
    (hl : l.Nodup) (h : removeAt l i = some (x, r)) : r.Nodup ∧ x ∉ r := by
  induction l generalizing i r with
  | nil => simp [removeAt] at h
  | cons a t ih =>
    rw [List.nodup_cons] at hl
    cases i with
    | zero =>
      simp [removeAt] at h
      obtain ⟨hx, hr⟩ := h
      subst hx
      subst hr
      exact ⟨hl.2, hl.1⟩
    | succ n =>
      simp only [removeAt, Option.map_eq_some'] at h
      obtain ⟨⟨z, s⟩, hz, he⟩ := h
      cases he
      obtain ⟨hs, hzs⟩ := ih n s hl.2 hz
      refine ⟨List.nodup_cons.mpr ⟨fun ha => hl.1 (removeAt_sub t n z s hz a ha), hs⟩, ?_⟩
      intro hmem
      rcases List.mem_cons.mp hmem with h1 | h2
      · exact hl.1 (h1 ▸ removeAt_mem t n z s hz)
      · exact hzs h2

theorem sampleIdxGo_sub (k : Nat) :
    ∀ (s : Nat) (pool : List Nat), ∀ x ∈ sampleIdxGo s pool k, x ∈ pool := by
  induction k with
  | zero => intro s pool x hx; simp [sampleIdxGo] at hx
  | succ n ih =>
    intro s pool x hx
    unfold sampleIdxGo at hx
    cases hrm : removeAt pool (lcgNext s % pool.length) with
    | none => rw [hrm] at hx; simp at hx
    | some p =>
      rw [hrm] at hx
      rcases List.mem_cons.mp hx with h1 | h2
      · exact h1 ▸ removeAt_mem pool _ p.1 p.2 (by rw [hrm])
      · exact removeAt_sub pool _ p.1 p.2 (by rw [hrm]) x (ih (lcgNext s) p.2 x h2)

theorem sampleIdxGo_length (k : Nat) :
    ∀ (s : Nat) (pool : List Nat), k ≤ pool.length →
      (sampleIdxGo s pool k).length = k := by
  induction k with
  | zero => intro s pool _; rfl
  | succ n ih =>
    intro s pool hk
    have hpos : 0 < pool.length := Nat.lt_of_lt_of_le (Nat.succ_pos n) hk
    have hi : lcgNext s % pool.length < pool.length := Nat.mod_lt _ hpos
    obtain ⟨x, r, hr⟩ := removeAt_isSome pool _ hi
    unfold sampleIdxGo
    rw [hr]
    have hlen : r.length + 1 = pool.length := removeAt_length pool _ x r hr
    have : n ≤ r.length := by omega
    simp [ih (lcgNext s) r this]

theorem sampleIdxGo_nodup (k : Nat) :
    ∀ (s : Nat) (pool : List Nat), pool.Nodup → (sampleIdxGo s pool k).Nodup := by
  induction k with
  | zero => intro s pool _; simp [sampleIdxGo]
  | succ n ih =>
    intro s pool hp
    unfold sampleIdxGo
    cases hrm : removeAt pool (lcgNext s % pool.length) with
    | none => simp
    | some p =>
      obtain ⟨hr, hxr⟩ := removeAt_nodup pool _ p.1 p.2 hp (by rw [hrm])
      refine List.nodup_cons.mpr ⟨?_, ih (lcgNext s) p.2 hr⟩
      intro hmem
      exact hxr (sampleIdxGo_sub n (lcgNext s) p.2 p.1 hmem)

theorem filterMap_getElem_length {α : Type} (rows : List α) (idxs : List Nat)
    (h : ∀ i ∈ idxs, i < rows.length) :
    (idxs.filterMap (fun i => rows[i]?)).length = idxs.length := by
  induction idxs with
  | nil => rfl
  | cons i t ih =>
    have hi : i < rows.length := h i (by simp)
    have hrec := ih (fun j hj => h j (List.mem_cons_of_mem i hj))
    simp [List.filterMap_cons, List.getElem?_eq_getElem hi, hrec]

/-! ### Claim theorems -/

/-- C1: the rating-grouping function is total and matches the fixed
lookup: every rating value (null included) yields exactly one of
"Mature", "Teen", "Family/Kids"; TV-MA, R, NC-17 map to "Mature",
TV-14, PG-13 map to "Teen", and every other value (null included) maps
to "Family/Kids". -/
theorem claim1_rating_group_total (r : Option Str) :
    (simplify_rating r = "Mature".toList ∨ simplify_rating r = "Teen".toList ∨
      simplify_rating r = "Family/Kids".toList)
    ∧ ((r = some "TV-MA".toList ∨ r = some "R".toList ∨ r = some "NC-17".toList) →
        simplify_rating r = "Mature".toList)
    ∧ ((r = some "TV-14".toList ∨ r = some "PG-13".toList) →
        simplify_rating r = "Teen".toList)
    ∧ (¬(r = some "TV-MA".toList ∨ r = some "R".toList ∨ r = some "NC-17".toList) →
       ¬(r = some "TV-14".toList ∨ r = some "PG-13".toList) →
        simplify_rating r = "Family/Kids".toList) := by
  unfold simplify_rating
  by_cases h1 : r = some "TV-MA".toList ∨ r = some "R".toList ∨ r = some "NC-17".toList
  · rw [if_pos h1]
    refine ⟨Or.inl rfl, fun _ => rfl, fun h2 => ?_, fun hn _ => absurd h1 hn⟩
    rcases h1 with h | h | h <;> subst h <;>
      rcases h2 with g | g <;> exact absurd g (by decide)
  · rw [if_neg h1]
    by_cases h2 : r = some "TV-14".toList ∨ r = some "PG-13".toList
    · rw [if_pos h2]
      exact ⟨Or.inr (Or.inl rfl), fun hm => absurd hm h1, fun _ => rfl,
        fun _ hn => absurd h2 hn⟩
    · rw [if_neg h2]
      exact ⟨Or.inr (Or.inr rfl), fun hm => absurd hm h1, fun ht => absurd ht h2,
        fun _ _ => rfl⟩

/-- Witness for C1 at concrete ratings. -/
theorem claim1_witness :
    simplify_rating (some "R".toList) = "Mature".toList
    ∧ simplify_rating (some "PG-13".toList) = "Teen".toList
    ∧ simplify_rating none = "Family/Kids".toList :=
  ⟨(claim1_rating_group_total (some "R".toList)).2.1 (Or.inr (Or.inl rfl)),
   (claim1_rating_group_total (some "PG-13".toList)).2.2.1 (Or.inr rfl),
   (claim1_rating_group_total none).2.2.2 (by decide) (by decide)⟩

/-- The duration magnitude as the spec describes it after amendment:
the part of the (stripped) duration before the first space, put through
the coercing numeric parse; null in, null out. -/
def specDurationInt (d : Option Str) : Option ℚ :=
  d.bind (fun s => pdToNumeric (beforeChar spaceChar s))

/-- The duration unit as the spec describes it: the verbatim part after
the first space; null when absent or when the cell is null. -/
def specDurationType (d : Option Str) : Option Str :=
  d.bind (fun s => (pySplit1 spaceChar s).2)

/-- The duration magnitude exactly as the claim states it: the first
part parsed as an integer, null if that parse fails. -/
def specDurationIntClaim (d : Option Str) : Option Int :=
  d.bind (fun s => pyIntParse (beforeChar spaceChar s))

/-- C2 counterexample: on duration "1.5 min" the claimed
parse-as-integer semantics yields null (integer parsing of "1.5"
fails), but the code's `pd.to_numeric` coercion accepts "1.5", so the
pipeline stores a non-null `duration_int`. -/
theorem claim2_counterexample :
    specDurationIntClaim (some "1.5 min".toList) = none
    ∧ (cleanRow { duration := some "1.5 min".toList }).duration_int.isSome = true := by
  exact ⟨by decide, by decide⟩

/-- C2 as amended: the duration split divides the (already stripped)
duration on the first space; the first part goes through the coercing
numeric parse (null if it fails or the cell is null) into
`duration_int`, the second part verbatim (null if absent) into
`duration_type`; "90 min" gives (90, "min"), "2 Seasons" gives
(2, "Seasons"), "" and null give (null, null). -/
theorem claim2_duration_split :
    (∀ r : RawRow,
      (cleanRow r).duration_int = specDurationInt (stripO r.duration)
      ∧ (cleanRow r).duration_type = specDurationType (stripO r.duration))
    ∧ (cleanRow { duration := some "90 min".toList }).duration_int = some 90
    ∧ (cleanRow { duration := some "90 min".toList }).duration_type = some "min".toList
    ∧ (cleanRow { duration := some "2 Seasons".toList }).duration_int = some 2
    ∧ (cleanRow { duration := some "2 Seasons".toList }).duration_type
        = some "Seasons".toList
    ∧ (cleanRow { duration := some "".toList }).duration_int = none
    ∧ (cleanRow { duration := some "".toList }).duration_type = none
    ∧ (cleanRow { duration := none }).duration_int = none
    ∧ (cleanRow { duration := none }).duration_type = none := by
  refine ⟨fun r => ⟨?_, ?_⟩, by decide, by decide, by decide, by decide,
    by decide, by decide, by decide, by decide⟩
  · cases hd : r.duration with
    | none =>
      simp [cleanRow, cleanRowStripped, stripRow, durationFields, specDurationInt,
        stripO, hd]
    | some s =>
      simp [cleanRow, cleanRowStripped, stripRow, durationFields, specDurationInt,
        stripO, hd]
      rw [pySplit1_fst]
  · cases hd : r.duration with
    | none =>
      simp [cleanRow, cleanRowStripped, stripRow, durationFields, specDurationType,
        stripO, hd]
    | some s =>
      simp [cleanRow, cleanRowStripped, stripRow, durationFields, specDurationType,
        stripO, hd]

/-- C3: for non-null `country` (resp. `listed_in`), `country_primary`
(resp. `main_genre`) is the first comma-separated token of the original
value, trimmed of leading and trailing whitespace; with the concrete
examples of the spec. -/
theorem claim3_first_token :
    (∀ (r : RawRow) (c : Str), r.country = some c →
      (cleanRow r).country_primary = some (pyStrip (beforeChar commaChar c)))
    ∧ (∀ (r : RawRow) (g : Str), r.listed_in = some g →
      (cleanRow r).main_genre = some (pyStrip (beforeChar commaChar g)))
    ∧ (cleanRow { country := some "United States, India".toList }).country_primary
        = some "United States".toList
    ∧ (cleanRow { listed_in := some "Dramas, International Movies".toList }).main_genre
        = some "Dramas".toList
    ∧ (cleanRow { listed_in := some " Dramas ".toList }).main_genre
        = some "Dramas".toList := by
  refine ⟨?_, ?_, by decide, by decide, by decide⟩
  · intro r c hc
    simp [cleanRow, cleanRowStripped, stripRow, get_first_country, stripO, hc]
    exact pyStrip_beforeChar_pyStrip commaChar (by decide) c
  · intro r g hg
    simp [cleanRow, cleanRowStripped, stripRow, get_main_genre, stripO, hg]
    exact pyStrip_beforeChar_pyStrip commaChar (by decide) g

/-- Witness for C3 at a concrete row. -/
theorem claim3_witness :
    ({ country := some "United States, India".toList } : RawRow).country
        = some "United States, India".toList
    ∧ (cleanRow { country := some "United States, India".toList }).country_primary
        = some (pyStrip (beforeChar commaChar "United States, India".toList)) :=
  ⟨rfl, claim3_first_token.1 _ _ rfl⟩

/-- C4 counterexample: a table whose only row has a null duration makes
the expanded duration split a single column, so selecting column 1
(line 76 of the script) raises a `KeyError` and aborts the cleaning
stage, instead of setting the derived fields of that row to null. -/
theorem claim4_counterexample :
    cleanRows [{ duration := none }] = .error .missingDurationTypeColumn := rfl

/-- C4 as amended: provided some (stripped) duration cell contains a
space, so that the expanded split has the unit column, the cleaning
stage completes without error and every row-local derivation is
null-safe: null `country`, `listed_in`, `duration`, `date_added` (or an
unparseable `date_added`) yield null derived fields for that row. -/
theorem claim4_null_safe (rows : List RawRow)
    (h : hasSecondCol ((rows.map stripRow).map RawRow.duration) = true) :
    cleanRows rows = .ok (rows.map cleanRow)
    ∧ ∀ r ∈ rows,
        (r.country = none → (cleanRow r).country_primary = none)
        ∧ (r.listed_in = none → (cleanRow r).main_genre = none)
        ∧ (r.duration = none →
            (cleanRow r).duration_int = none ∧ (cleanRow r).duration_type = none)
        ∧ (r.date_added = none → (cleanRow r).year_added = none)
        ∧ (∀ s, r.date_added = some s → pdParseDate (pyStrip s) = none →
            (cleanRow r).year_added = none) := by
  constructor
  · unfold cleanRows
    rw [if_pos h, List.map_map]
    rfl
  · intro r _
    refine ⟨?_, ?_, ?_, ?_, ?_⟩
    · intro hc
      simp [cleanRow, cleanRowStripped, stripRow, get_first_country, stripO, hc]
    · intro hg
      simp [cleanRow, cleanRowStripped, stripRow, get_main_genre, stripO, hg]
    · intro hd
      constructor <;>
        simp [cleanRow, cleanRowStripped, stripRow, durationFields, stripO, hd]
    · intro hda
      simp [cleanRow, cleanRowStripped, stripRow, stripO, hda]
    · intro s hda hp
      simp [cleanRow, cleanRowStripped, stripRow, stripO, hda, hp]

/-- Witness for C4 at a one-row table whose duration contains a space. -/
theorem claim4_witness :
    hasSecondCol ((([{ duration := some "90 min".toList }] : List RawRow).map
        stripRow).map RawRow.duration) = true
    ∧ (cleanRows [{ duration := some "90 min".toList }]
        = .ok (([{ duration := some "90 min".toList }] : List RawRow).map cleanRow)
      ∧ ∀ r ∈ ([{ duration := some "90 min".toList }] : List RawRow),
          (r.country = none → (cleanRow r).country_primary = none)
          ∧ (r.listed_in = none → (cleanRow r).main_genre = none)
          ∧ (r.duration = none →
              (cleanRow r).duration_int = none ∧ (cleanRow r).duration_type = none)
          ∧ (r.date_added = none → (cleanRow r).year_added = none)
          ∧ (∀ s, r.date_added = some s → pdParseDate (pyStrip s) = none →
              (cleanRow r).year_added = none)) :=
  ⟨by decide, claim4_null_safe _ (by decide)⟩

/-- C5: the sampler is deterministic: the selected subset is a pure
function of the full table (target size 3000 and seed 42 are fixed in
`dfSubsetOf`), so any two runs on the same table produce identical
output, row for row. -/
theorem claim5_sampler_deterministic {α : Type} (t : Table α)
    (o1 o2 : Except SampleError (Table α))
    (h1 : dfSubsetOf t = o1) (h2 : dfSubsetOf t = o2) : o1 = o2 :=
  h1.symm.trans h2

/-- Witness for C5 on a concrete table. -/
theorem claim5_witness :
    dfSubsetOf (⟨["title"], ([] : List RawRow)⟩ : Table RawRow)
      = dfSubsetOf (⟨["title"], ([] : List RawRow)⟩ : Table RawRow) :=
  claim5_sampler_deterministic ⟨["title"], []⟩ _ _ rfl rfl

/-- C6: when the full table has fewer rows than the target size 3000,
the sampler fails with the insufficient-rows error instead of silently
returning fewer rows. -/
theorem claim6_insufficient_rows {α : Type} (t : Table α)
    (h : t.rows.length < 3000) :
    dfSubsetOf t = .error .insufficientRows := by
  unfold dfSubsetOf pandasSample
  rw [if_pos h]

/-- Witness for C6 on a one-row table. -/
theorem claim6_witness :
    (⟨["title"], [({} : RawRow)]⟩ : Table RawRow).rows.length < 3000
    ∧ dfSubsetOf (⟨["title"], [({} : RawRow)]⟩ : Table RawRow)
        = .error .insufficientRows :=
  ⟨by decide, claim6_insufficient_rows _ (by decide)⟩

/-- C7: when the table has at least `n` rows the sampler succeeds; the
output keeps the column set, has exactly `n` rows, every output row is
a row of the input, and the selected indices are pairwise distinct
(sampling without replacement). The script instantiates `n = 3000`. -/
theorem claim7_subset_valid {α : Type} (t : Table α) (n seed : Nat)
    (h : n ≤ t.rows.length) :
    ∃ t2, pandasSample t n seed = .ok t2
      ∧ t2.columns = t.columns
      ∧ t2.rows.length = n
      ∧ (∀ r ∈ t2.rows, r ∈ t.rows)
      ∧ (sampleIdxGo seed (List.range t.rows.length) n).Nodup := by
  have hnl : ¬ (t.rows.length < n) := Nat.not_lt.mpr h
  refine ⟨⟨t.columns, (sampleIdxGo seed (List.range t.rows.length) n).filterMap
      (fun i => t.rows[i]?)⟩, ?_, rfl, ?_, ?_, ?_⟩
  · unfold pandasSample
    rw [if_neg hnl]
  · have hmem : ∀ i ∈ sampleIdxGo seed (List.range t.rows.length) n,
        i < t.rows.length := by
      intro i hi
      exact List.mem_range.mp (sampleIdxGo_sub n seed (List.range t.rows.length) i hi)
    rw [filterMap_getElem_length t.rows _ hmem]
    exact sampleIdxGo_length n seed _ (by simpa using h)
  · intro r hr
    rcases List.mem_filterMap.mp hr with ⟨i, _, hget⟩
    exact List.getElem?_mem hget
  · exact sampleIdxGo_nodup n seed _ (List.nodup_range _)

/-- Witness for C7 on a three-row table sampled down to two rows. -/
theorem claim7_witness :
    2 ≤ (⟨["c"], [10, 20, 30]⟩ : Table Nat).rows.length
    ∧ ∃ t2, pandasSample (⟨["c"], [10, 20, 30]⟩ : Table Nat) 2 7 = .ok t2
        ∧ t2.columns = (⟨["c"], [10, 20, 30]⟩ : Table Nat).columns
        ∧ t2.rows.length = 2
        ∧ (∀ r ∈ t2.rows, r ∈ (⟨["c"], [10, 20, 30]⟩ : Table Nat).rows)
        ∧ (sampleIdxGo 7 (List.range
            (⟨["c"], [10, 20, 30]⟩ : Table Nat).rows.length) 2).Nodup :=
  ⟨by decide, claim7_subset_valid ⟨["c"], [10, 20, 30]⟩ 2 7 (by decide)⟩

/-- C8: the cleaning stage never writes to the sampled table: after the
stage runs, the `df_subset` binding is unchanged, and only the separate
`df` binding (initialised from a copy at line 62) holds the cleaned
table. -/
theorem claim8_no_mutation (st : CleaningState) :
    (runCleaningStage st).df_subset = st.df_subset
    ∧ (runCleaningStage st).df = some (cleanRows st.df_subset) :=
  ⟨rfl, rfl⟩

/-- C9: the cleaner is idempotent on its own output: re-running the
cleaning sequence on a successfully cleaned table reproduces that table
exactly. -/
theorem claim9_idempotent (rows : List RawRow) (out : List CleanRow)
    (h : cleanRows rows = .ok out) : cleanRowsAgain out = .ok out :=
  cleanRows_again rows out h

/-- The cleaned form of a one-row table with duration "2 Seasons". -/
def cleanedSeasonsRow : CleanRow :=
  { duration := some "2 Seasons".toList, duration_int := some 2,
    duration_type := some "Seasons".toList }

/-- Witness for C9 on that concrete table. -/
theorem claim9_witness :
    cleanRows [{ duration := some "2 Seasons".toList }] = .ok [cleanedSeasonsRow]
    ∧ cleanRowsAgain [cleanedSeasonsRow] = .ok [cleanedSeasonsRow] :=
  ⟨rfl, claim9_idempotent [{ duration := some "2 Seasons".toList }] _ rfl⟩

/-- C10: in the heatmap stage the rating grouping is applied only to
`df_genre`, the table filtered to rows whose `main_genre` and `rating`
are both non-null; every row reaching `simplify_rating` there has a
non-null rating. -/
theorem claim10_heatmap_filter (rows : List CleanRow) (r : CleanRow)
    (h : r ∈ dfGenre rows) :
    r.rating ≠ none ∧ r.main_genre ≠ none
    ∧ simplify_rating r.rating ∈ ratingGroupCol rows := by
  have hf := List.mem_filter.mp h
  have hb := hf.2
  rw [Bool.and_eq_true] at hb
  refine ⟨?_, ?_, ?_⟩
  · exact Option.ne_none_iff_isSome.mpr hb.2
  · exact Option.ne_none_iff_isSome.mpr hb.1
  · exact List.mem_map_of_mem (fun x => simplify_rating x.rating) h

/-- A row that survives the heatmap filter. -/
def genreRow : CleanRow :=
  { rating := some "R".toList, main_genre := some "Dramas".toList }

/-- Witness for C10 on a two-row table with one all-null row. -/
theorem claim10_witness :
    genreRow ∈ dfGenre [genreRow, {}]
    ∧ (genreRow.rating ≠ none ∧ genreRow.main_genre ≠ none
      ∧ simplify_rating genreRow.rating ∈ ratingGroupCol [genreRow, {}]) :=
  ⟨by decide, claim10_heatmap_filter [genreRow, {}] genreRow (by decide)⟩
